import Mathlib

/-!
Shallow embedding of the hourly batch aggregation job (src/main.py): eligibility
filtering of stored objects, JSON event parsing, timestamp normalization,
aggregation by (hour, event_type), and partitioned CSV summary writing, together
with executable models of the external collaborators the code calls (the object
store, and the Python stdlib functions `datetime.fromisoformat`, `json.loads`,
`str` methods, `int`, `csv.writer`).
-/

/-! ## JSON value model (result type of the external `json.loads`) -/

mutual

/-- A parsed JSON value, as produced by the external `json.loads` collaborator.
Numbers are modelled as integers; objects carry their (deduplicated) fields. -/
inductive JValue where
  | jnull
  | jbool (b : Bool)
  | jnum (n : Int)
  | jstr (s : String)
  | jarr (elems : JList)
  | jobj (fields : JFields)

/-- A list of JSON values (the elements of a JSON array). -/
inductive JList where
  | nil
  | cons (v : JValue) (rest : JList)

/-- The fields of a JSON object, in insertion order, keys already unique. -/
inductive JFields where
  | nil
  | cons (k : String) (v : JValue) (rest : JFields)

end

mutual

/-- Structural equality of JSON values, modelling Python `==` on the data
structures returned by `json.loads`. -/
def JValue.jeq : JValue → JValue → Bool
  | .jnull, .jnull => true
  | .jbool x, .jbool y => x == y
  | .jnum x, .jnum y => x == y
  | .jstr x, .jstr y => x == y
  | .jarr xs, .jarr ys => JList.jeq xs ys
  | .jobj xs, .jobj ys => JFields.jeq xs ys
  | _, _ => false

/-- Structural equality of JSON arrays. -/
def JList.jeq : JList → JList → Bool
  | .nil, .nil => true
  | .cons x xs, .cons y ys => JValue.jeq x y && JList.jeq xs ys
  | _, _ => false

/-- Structural equality of JSON object fields. -/
def JFields.jeq : JFields → JFields → Bool
  | .nil, .nil => true
  | .cons k v xs, .cons k2 v2 ys => k == k2 && JValue.jeq v v2 && JFields.jeq xs ys
  | _, _ => false

end

/-- The elements of a JSON array as a Lean list (a Python `list` iterated
in order). -/
def JList.toList : JList → List JValue
  | .nil => []
  | .cons v rest => v :: JList.toList rest

/-- First value stored under a key in a JSON object's fields. -/
def JFields.get : JFields → String → Option JValue
  | .nil, _ => none
  | .cons k v rest, key => if k == key then some v else JFields.get rest key

/-- Outcome of a Python subscript `value[key]` with a string key: the value,
a `KeyError`, or a `TypeError` because the value is not a mapping. -/
inductive ItemResult where
  | found (v : JValue)
  | keyMissing
  | notAMapping

/-- Model of the Python subscript `event[key]` on a parsed JSON value. -/
def getItem (j : JValue) (key : String) : ItemResult :=
  match j with
  | .jobj fields =>
    match fields.get key with
    | some v => .found v
    | none => .keyMissing
  | _ => .notAMapping

/-! ## Python string helpers (models of `str` methods on the underlying text) -/

/-- Model of Python `s.endswith(suffix)`: case-sensitive exact suffix match. -/
def pyEndsWith (s suffix : String) : Bool :=
  suffix.data.isSuffixOf s.data

/-- Model of the object store listing a path: names filtered to those starting
with the given path string (GCS `list_blobs(prefix=...)` semantics). -/
def pyStartsWith (start s : String) : Bool :=
  start.data.isPrefixOf s.data

/-- One step list of Python `str.replace`: replaces non-overlapping occurrences
of `old` left to right, driven by a fuel counter (the input length suffices). -/
def replaceFuel (old new : List Char) : Nat → List Char → List Char
  | _, [] => []
  | 0, l => l
  | fuel + 1, c :: rest =>
    if !old.isEmpty && old.isPrefixOf (c :: rest) then
      new ++ replaceFuel old new fuel (List.drop (old.length - 1) rest)
    else
      c :: replaceFuel old new fuel rest

/-- Model of Python `s.replace(old, new)` (for nonempty `old`). -/
def pyReplace (s old new : String) : String :=
  String.mk (replaceFuel old.data new.data s.data.length s.data)

/-- Numeric value of an ASCII digit character (code points 48 through 57). -/
def digitVal (c : Char) : Option Nat :=
  if c.toNat < 48 ∨ 57 < c.toNat then none
  else some (c.toNat - 48)

/-- Value of a digit string, accumulator style; fails on any non-digit. -/
def digitsAcc (acc : Nat) : List Char → Option Nat
  | [] => some acc
  | c :: rest =>
    match digitVal c with
    | some d => digitsAcc (acc * 10 + d) rest
    | none => none

/-- Model of Python `int(s)` on decimal strings: optional sign followed by a
nonempty run of digits (whitespace/underscore forms are not modelled). -/
def pythonInt (s : String) : Option Int :=
  match s.data with
  | '-' :: rest =>
    if rest.isEmpty then none
    else (digitsAcc 0 rest).map (fun n => -(n : Int))
  | '+' :: rest =>
    if rest.isEmpty then none
    else (digitsAcc 0 rest).map (fun n => (n : Int))
  | cs =>
    if cs.isEmpty then none
    else (digitsAcc 0 cs).map (fun n => (n : Int))

/-! ## Calendar datetimes (model of aware `datetime.datetime` values) -/

/-- A calendar datetime with a fixed UTC offset in minutes, modelling a Python
`datetime.datetime` whose `tzinfo` is a fixed-offset timezone. -/
@[ext]
structure DT where
  year : Int
  month : Int
  day : Int
  hour : Int
  minute : Int
  second : Int
  microsecond : Int
  utcoffset : Int
deriving DecidableEq

/-- Gregorian leap-year test. -/
def isLeapYear (y : Int) : Bool :=
  y % 4 == 0 && (y % 100 != 0 || y % 400 == 0)

/-- Number of days in a Gregorian month. -/
def daysInMonth (y m : Int) : Int :=
  if m == 2 then (if isLeapYear y then 29 else 28)
  else if m == 4 || m == 6 || m == 9 || m == 11 then 30
  else 31

/-- The previous calendar day (time-of-day fields untouched). -/
def prevDay (d : DT) : DT :=
  if 1 < d.day then { d with day := d.day - 1 }
  else if 1 < d.month then { d with month := d.month - 1, day := daysInMonth d.year (d.month - 1) }
  else { d with year := d.year - 1, month := 12, day := 31 }

/-- The next calendar day (time-of-day fields untouched). -/
def nextDay (d : DT) : DT :=
  if d.day < daysInMonth d.year d.month then { d with day := d.day + 1 }
  else if d.month < 12 then { d with month := d.month + 1, day := 1 }
  else { d with year := d.year + 1, month := 1, day := 1 }

/-- Model of `dt.astimezone(timezone.utc)` for an aware datetime with a whole-
minute offset of magnitude below one day: the same instant with UTC fields.
Python equality on aware datetimes compares instants, i.e. these values. -/
def astimezoneUTC (d : DT) : DT :=
  let total := d.hour * 60 + d.minute - d.utcoffset
  if total < 0 then
    { prevDay d with hour := (total + 1440) / 60, minute := (total + 1440) % 60, utcoffset := 0 }
  else if 1440 ≤ total then
    { nextDay d with hour := (total - 1440) / 60, minute := (total - 1440) % 60, utcoffset := 0 }
  else
    { d with hour := total / 60, minute := total % 60, utcoffset := 0 }

/-- Model of Python `==` on aware datetimes: equality of instants. -/
def dtEqb (a b : DT) : Bool :=
  decide (astimezoneUTC a = astimezoneUTC b)

/-- Range validity enforced by the `datetime` constructor (plus whole-minute
UTC offsets of magnitude below one day, as produced by ISO-8601 parsing). -/
def validDTb (d : DT) : Bool :=
  decide (1 ≤ d.year) && decide (d.year ≤ 9999) &&
  decide (1 ≤ d.month) && decide (d.month ≤ 12) &&
  decide (1 ≤ d.day) && decide (d.day ≤ daysInMonth d.year d.month) &&
  decide (0 ≤ d.hour) && decide (d.hour ≤ 23) &&
  decide (0 ≤ d.minute) && decide (d.minute ≤ 59) &&
  decide (0 ≤ d.second) && decide (d.second ≤ 59) &&
  decide (0 ≤ d.microsecond) && decide (d.microsecond ≤ 999999) &&
  decide (-1439 ≤ d.utcoffset) && decide (d.utcoffset ≤ 1439)

/-! ## ISO-8601 parsing (model of `datetime.fromisoformat`) -/

/-- Value of a two-digit group. -/
def twoDigits (a b : Char) : Option Nat :=
  match digitVal a, digitVal b with
  | some x, some y => some (10 * x + y)
  | _, _ => none

/-- Value of a four-digit group. -/
def fourDigits (a b c d : Char) : Option Nat :=
  match twoDigits a b, twoDigits c d with
  | some x, some y => some (100 * x + y)
  | _, _ => none

/-- Greedily split a leading run of digits off a character list. -/
def takeDigits : List Char → List Nat × List Char
  | [] => ([], [])
  | c :: rest =>
    match digitVal c with
    | some d =>
      let p := takeDigits rest
      (d :: p.1, p.2)
    | none => ([], c :: rest)

/-- Microsecond value of a fractional-second digit run (one to six digits). -/
def scaleMicros (ds : List Nat) : Option Nat :=
  if ds.length = 0 ∨ 6 < ds.length then none
  else some ((ds.foldl (fun acc d => acc * 10 + d) 0) * 10 ^ (6 - ds.length))

/-- Parse a trailing `±HH:MM` UTC offset into signed minutes. -/
def offsetMinutes : List Char → Option Int
  | [sg, a, b, ':', c, d] =>
    match twoDigits a b, twoDigits c d with
    | some oh, some om =>
      if (sg == '+' || sg == '-') && decide (oh ≤ 23) && decide (om ≤ 59) then
        some (if sg == '-' then -((oh : Int) * 60 + (om : Int)) else (oh : Int) * 60 + (om : Int))
      else none
    | _, _ => none
  | _ => none

/-- Parse an optional fractional-second part followed by a mandatory offset. -/
def fracAndOffset (cs : List Char) : Option (Nat × Int) :=
  match cs with
  | '.' :: rest =>
    let p := takeDigits rest
    match scaleMicros p.1, offsetMinutes p.2 with
    | some us, some off => some (us, off)
    | _, _ => none
  | _ =>
    match offsetMinutes cs with
    | some off => some (0, off)
    | none => none

/-- Raw shape parse of `YYYY-MM-DD<sep>HH:MM:SS[.ffffff]±HH:MM`. -/
def rawParseISO (s : String) : Option DT :=
  match s.data with
  | y1 :: y2 :: y3 :: y4 :: '-' :: m1 :: m2 :: '-' :: d1 :: d2 :: _sep ::
      h1 :: h2 :: ':' :: n1 :: n2 :: ':' :: s1 :: s2 :: rest =>
    match fourDigits y1 y2 y3 y4, twoDigits m1 m2, twoDigits d1 d2,
          twoDigits h1 h2, twoDigits n1 n2, twoDigits s1 s2, fracAndOffset rest with
    | some y, some mo, some dy, some h, some mi, some sec, some (us, off) =>
      some ⟨(y : Int), (mo : Int), (dy : Int), (h : Int), (mi : Int), (sec : Int), (us : Int), off⟩
    | _, _, _, _, _, _, _ => none
  | _ => none

/-- Model of Python `datetime.fromisoformat`, restricted to the offset-aware
timestamp forms the spec commits to (date, time, optional fraction, explicit
`±HH:MM` offset); the result is range-checked like the `datetime` constructor. -/
def fromisoformat (s : String) : Option DT :=
  match rawParseISO s with
  | some d => if validDTb d then some d else none
  | none => none

/-! ## Error taxonomy (the Python exception kinds the job can raise) -/

/-- Exception kinds raised by src/main.py, one constructor per raise site:
`RuntimeError` for a missing environment variable, `ValueError` from `int()`,
`UnicodeDecodeError`, `json.JSONDecodeError`, `ValueError` for a non-array
JSON file, `ValueError` for a bad timestamp record, `KeyError` and `TypeError`
from subscripting an event. -/
inductive RunError where
  | missingEnv (name : String)
  | intValueError
  | decodingError (file : String)
  | jsonDecodeError (file : String)
  | schemaValueError (file : String)
  | timestampValueError
  | keyError
  | typeError
deriving DecidableEq

/-! ## Eligibility filter (src/main.py, list_eligible_json_files) -/

/-- A stored object: name, last-modified instant (microseconds since an epoch,
UTC), and raw byte content. -/
structure Blob where
  name : String
  updated : Int
  content : List Nat
deriving DecidableEq

/-- Model of the external store listing: objects under a path, in store order. -/
def list_blobs (store : List Blob) (pathStart : String) : List Blob :=
  store.filter (fun b => pyStartsWith pathStart b.name)

/-- Embedding of `list_eligible_json_files`: keep listed objects whose name
ends with `.json` and whose last-modified instant is strictly before
`now(UTC) - lookback_hours` (an hour being 3600000000 microseconds). -/
def list_eligible_json_files (store : List Blob) (pathStart : String)
    (now lookback_hours : Int) : List Blob :=
  let cutoff := now - lookback_hours * 3600000000
  (list_blobs store pathStart).filter
    (fun b => pyEndsWith b.name ".json" && decide (b.updated < cutoff))

/-! ## Event parser (src/main.py, download_and_parse_events) -/

/-- Embedding of `download_and_parse_events`, parameterized by the external
byte decoding (`bytes.decode("utf-8")`) and JSON parsing (`json.loads`)
collaborators: per file, decode, parse, require a top-level array, and
concatenate all elements in order; the first failure aborts the whole run. -/
def download_and_parse_events (decode : List Nat → Option String)
    (jsonLoads : String → Option JValue) : List Blob → Except RunError (List JValue)
  | [] => .ok []
  | b :: rest =>
    match decode b.content with
    | none => .error (.decodingError b.name)
    | some content =>
      match jsonLoads content with
      | none => .error (.jsonDecodeError b.name)
      | some (.jarr events) =>
        match download_and_parse_events decode jsonLoads rest with
        | .error e => .error e
        | .ok more => .ok (events.toList ++ more)
      | some _ => .error (.schemaValueError b.name)

/-! ## Normalizer (src/main.py, normalize_events) -/

/-- A normalized event: hour bucket and the event's `event_type` value. -/
structure NormalizedEvent where
  hour : DT
  event_type : JValue

/-- The code's hour truncation `ts.replace(minute=0, second=0, microsecond=0)`:
zero the sub-hour fields of the datetime, in its own offset. -/
def truncToHour (d : DT) : DT :=
  { d with minute := 0, second := 0, microsecond := 0 }

/-- Embedding of one iteration of the `normalize_events` loop. The `try` block
covers the `event_timestamp` subscript, the `Z` substitution and the parse, so
any failure there (missing key, non-string value, bad format) becomes the
`ValueError`; the `event_type` subscript happens outside the `try`. -/
def normalize_event (event : JValue) : Except RunError NormalizedEvent :=
  match (match getItem event "event_timestamp" with
         | .found (.jstr s) => fromisoformat (pyReplace s "Z" "+00:00")
         | _ => none) with
  | none => .error .timestampValueError
  | some ts =>
    match getItem event "event_type" with
    | .found v => .ok ⟨truncToHour ts, v⟩
    | .keyMissing => .error .keyError
    | .notAMapping => .error .typeError

/-- Embedding of `normalize_events`: normalize in order, aborting the whole
batch (no output list) at the first failing record. -/
def normalize_events : List JValue → Except RunError (List NormalizedEvent)
  | [] => .ok []
  | e :: rest =>
    match normalize_event e with
    | .error err => .error err
    | .ok r =>
      match normalize_events rest with
      | .error err => .error err
      | .ok rs => .ok (r :: rs)

/-! ## Aggregator (src/main.py, aggregate_events) -/

/-- An aggregate row: hour bucket, event type value, and count. -/
structure AggregateRecord where
  hour : DT
  event_type : JValue
  total_events : Nat

/-- Model of Python `==` on the dict key `(hour, event_type)`: instants for the
aware datetimes, structural equality for the JSON values. -/
def keyEqb (k k2 : DT × JValue) : Bool :=
  dtEqb k.1 k2.1 && JValue.jeq k.2 k2.2

/-- One `aggregation[key] += 1` step on the counting dict, represented as an
association list in insertion order; the first stored key equal to the probe
(Python dict semantics) keeps its stored representative. -/
def bump (m : List ((DT × JValue) × Nat)) (k : DT × JValue) : List ((DT × JValue) × Nat) :=
  match m with
  | [] => [(k, 1)]
  | (k0, n) :: rest => if keyEqb k0 k then (k0, n + 1) :: rest else (k0, n) :: bump rest k

/-- The counting loop of `aggregate_events` over the input events. -/
def aggLoop : List NormalizedEvent → List ((DT × JValue) × Nat) → List ((DT × JValue) × Nat)
  | [], m => m
  | e :: rest, m => aggLoop rest (bump m (e.hour, e.event_type))

/-- Embedding of `aggregate_events`: count occurrences of each
`(hour, event_type)` key and emit one record per distinct key. -/
def aggregate_events (normalized : List NormalizedEvent) : List AggregateRecord :=
  (aggLoop normalized []).map (fun kn => ⟨kn.1.1, kn.1.2, kn.2⟩)

/-! ## Partitioned writer (src/main.py, write_hourly_csv_summaries) -/

/-- Zero-padded decimal rendering of a nonnegative integer to a width. -/
def padz (w : Nat) (n : Int) : String :=
  String.mk (List.replicate (w - (toString n).length) '0') ++ toString n

/-- Render a whole-minute UTC offset as `±HH:MM` (Python `isoformat` style). -/
def offsetText (off : Int) : String :=
  (if off < 0 then "-" else "+") ++
  padz 2 ((if off < 0 then -off else off) / 60) ++ ":" ++
  padz 2 ((if off < 0 then -off else off) % 60)

/-- Model of Python `datetime.isoformat()` on an aware datetime: date, time,
fractional seconds only when nonzero, then the offset. -/
def isoformat (d : DT) : String :=
  padz 4 d.year ++ "-" ++ padz 2 d.month ++ "-" ++ padz 2 d.day ++ "T" ++
  padz 2 d.hour ++ ":" ++ padz 2 d.minute ++ ":" ++ padz 2 d.second ++
  (if d.microsecond == 0 then "" else "." ++ padz 6 d.microsecond) ++
  offsetText d.utcoffset

/-- Model of Python `str()` on the scalar JSON values a CSV cell can hold
(container values are outside the behaviour the spec commits to). -/
def pyStr (v : JValue) : String :=
  match v with
  | .jstr s => s
  | .jnum n => toString n
  | .jbool b => if b then "True" else "False"
  | .jnull => "None"
  | .jarr _ => ""
  | .jobj _ => ""

/-- Model of `csv.writer` field quoting (excel dialect, minimal quoting). -/
def csvField (s : String) : String :=
  if s.data.any (fun c => c == ',' || c == '"' || c == '\r' || c == '\n') then
    "\"" ++ pyReplace s "\"" "\"\"" ++ "\""
  else s

/-- Model of one `csv.writer.writerow` call: comma-joined quoted fields and
the excel dialect `\r\n` line terminator. -/
def csvLine (fields : List String) : String :=
  String.intercalate "," (fields.map csvField) ++ "\r\n"

/-- The CSV document for one hour group: the header row then one row per
record, `hour` serialized with `isoformat`. -/
def csvDoc (records : List AggregateRecord) : String :=
  csvLine ["hour", "event_type", "total_events"] ++
  String.join (records.map (fun r => csvLine [isoformat r.hour, pyStr r.event_type, toString r.total_events]))

/-- One `records_by_hour.setdefault(hour, []).append(record)` step: append to
the first group whose stored key equals the record's hour (Python dict
equality on aware datetimes), else open a new group at the end. -/
def addRec (gs : List (DT × List AggregateRecord)) (r : AggregateRecord) :
    List (DT × List AggregateRecord) :=
  match gs with
  | [] => [(r.hour, [r])]
  | (k, rs) :: rest =>
    if dtEqb k r.hour then (k, rs ++ [r]) :: rest else (k, rs) :: addRec rest r

/-- The grouping loop of `write_hourly_csv_summaries` over the records. -/
def groupLoop : List AggregateRecord → List (DT × List AggregateRecord) →
    List (DT × List AggregateRecord)
  | [], gs => gs
  | r :: rest, gs => groupLoop rest (addRec gs r)

/-- The output object path for one hour group, built with `strftime` from the
group key's own calendar fields, zero-padded. -/
def output_path (k : DT) : String :=
  "summaries/" ++ padz 4 k.year ++ "/" ++ padz 2 k.month ++ "/" ++ padz 2 k.day ++
  "/hour=" ++ padz 2 k.hour ++ "/summary.csv"

/-- Embedding of `write_hourly_csv_summaries`: group records by hour and emit
one `(path, csv document)` upload per group, in group insertion order. -/
def write_hourly_csv_summaries (aggregated_results : List AggregateRecord) :
    List (String × String) :=
  (groupLoop aggregated_results []).map (fun g => (output_path g.1, csvDoc g.2))

/-! ## Configuration loading and the top-level run (src/main.py, main) -/

/-- Embedding of `get_env_var`: look the name up in the environment with a
default, and raise `RuntimeError` when a required variable resolves to None. -/
def get_env_var (env : String → Option String) (name : String) (required : Bool)
    (default : Option String) : Except RunError (Option String) :=
  let value := match env name with
               | some v => some v
               | none => default
  if required && value.isNone then .error (.missingEnv name) else .ok value

/-- The run parameters read at the top of `main`. -/
structure PipelineConfig where
  input_bucket : String
  output_bucket : String
  input_pathStart : String
  lookback_hours : Int
deriving DecidableEq

/-- Embedding of the configuration lines of `main`: the two bucket names are
required with no default, the path start defaults to `events/`, and
`LOOKBACK_HOURS` defaults to `"24"` before being fed to `int()`. Since every
call passes a non-None default or requires the variable, the `Option` results
are always `some`; `getD` merely repeats the same default. -/
def load_config (env : String → Option String) : Except RunError PipelineConfig :=
  match get_env_var env "INPUT_BUCKET" true none with
  | .error e => .error e
  | .ok ib =>
  match get_env_var env "OUTPUT_BUCKET" true none with
  | .error e => .error e
  | .ok ob =>
  match get_env_var env "INPUT_PREFIX" true (some "events/") with
  | .error e => .error e
  | .ok ip =>
  match get_env_var env "LOOKBACK_HOURS" true (some "24") with
  | .error e => .error e
  | .ok lb =>
  match pythonInt (lb.getD "24") with
  | none => .error .intValueError
  | some n => .ok ⟨ib.getD "", ob.getD "", ip.getD "events/", n⟩

namespace Src

/-- Embedding of `main`: load configuration, list eligible files, return with
no uploads when none are eligible, otherwise parse, normalize, aggregate and
write; the value is the list of `(path, content)` uploads, or the exception. -/
def main (env : String → Option String) (store : List Blob) (now : Int)
    (decode : List Nat → Option String) (jsonLoads : String → Option JValue) :
    Except RunError (List (String × String)) :=
  match load_config env with
  | .error e => .error e
  | .ok cfg =>
    let eligible_files := list_eligible_json_files store cfg.input_pathStart now cfg.lookback_hours
    if eligible_files.isEmpty then .ok []
    else
      match download_and_parse_events decode jsonLoads eligible_files with
      | .error e => .error e
      | .ok events =>
        match normalize_events events with
        | .error e => .error e
        | .ok normalized_events =>
          let aggregated_results := aggregate_events normalized_events
          .ok (write_hourly_csv_summaries aggregated_results)

end Src

/-! ## Spec-side definitions (for comparison with the embedded code) -/

/-- Modelled from the spec: "parse `event_timestamp` ..., convert to UTC, and
truncate to the start of its hour" — the UTC conversion of the parsed
timestamp with minutes, seconds and microseconds zeroed. -/
def utcHourStart (ts : DT) : DT :=
  { astimezoneUTC ts with minute := 0, second := 0, microsecond := 0 }

/-- Modelled from the spec: the output path built from "zero-padded UTC
calendar fields of that hour", i.e. from the UTC conversion of the hour. -/
def utcCalendarPath (k : DT) : String :=
  output_path (astimezoneUTC k)

/-- Canonical form of an aggregation key: UTC instant plus event type. Two
keys are Python-equal exactly when their canonical forms coincide. -/
def keyCanon (k : DT × JValue) : DT × JValue :=
  (astimezoneUTC k.1, k.2)

/-- Number of input events whose `(hour, event_type)` key equals `k` under
Python equality. -/
def countKey (l : List NormalizedEvent) (k : DT × JValue) : Nat :=
  l.countP (fun e => keyEqb (e.hour, e.event_type) k)

/-- Python equality of two aggregate records (instant, value, count). -/
def recEqb (a b : AggregateRecord) : Bool :=
  keyEqb (a.hour, a.event_type) (b.hour, b.event_type) && a.total_events == b.total_events

/-- Sum of the stored counts of the counting dict. -/
def sumN (m : List ((DT × JValue) × Nat)) : Nat :=
  (m.map (fun kn => kn.2)).sum

/-- Stored count for a key in the counting dict (0 when absent). -/
def lookCnt : List ((DT × JValue) × Nat) → (DT × JValue) → Nat
  | [], _ => 0
  | (k0, n) :: rest, k => if keyEqb k0 k then n else lookCnt rest k

/-- Whether one event record normalizes without an exception. -/
def normFine (e : JValue) : Bool :=
  match normalize_event e with
  | .ok _ => true
  | .error _ => false

/-- Whether one file decodes and parses to a top-level JSON array. -/
def fileFine (decode : List Nat → Option String) (jsonLoads : String → Option JValue)
    (b : Blob) : Bool :=
  match decode b.content with
  | none => false
  | some c =>
    match jsonLoads c with
    | some (.jarr _) => true
    | _ => false

/-! ## Properties of the JSON equality model -/

mutual

theorem JValue.jeq_iff : ∀ a b : JValue, JValue.jeq a b = true ↔ a = b
  | .jnull, .jnull => by simp [JValue.jeq]
  | .jbool _, .jbool _ => by simp [JValue.jeq]
  | .jnum _, .jnum _ => by simp [JValue.jeq]
  | .jstr _, .jstr _ => by simp [JValue.jeq]
  | .jarr xs, .jarr ys => by simp [JValue.jeq, JList.jeqList_iff xs ys]
  | .jobj xs, .jobj ys => by simp [JValue.jeq, JFields.jeqFields_iff xs ys]
  | .jnull, .jbool _ => by simp [JValue.jeq]
  | .jnull, .jnum _ => by simp [JValue.jeq]
  | .jnull, .jstr _ => by simp [JValue.jeq]
  | .jnull, .jarr _ => by simp [JValue.jeq]
  | .jnull, .jobj _ => by simp [JValue.jeq]
  | .jbool _, .jnull => by simp [JValue.jeq]
  | .jbool _, .jnum _ => by simp [JValue.jeq]
  | .jbool _, .jstr _ => by simp [JValue.jeq]
  | .jbool _, .jarr _ => by simp [JValue.jeq]
  | .jbool _, .jobj _ => by simp [JValue.jeq]
  | .jnum _, .jnull => by simp [JValue.jeq]
  | .jnum _, .jbool _ => by simp [JValue.jeq]
  | .jnum _, .jstr _ => by simp [JValue.jeq]
  | .jnum _, .jarr _ => by simp [JValue.jeq]
  | .jnum _, .jobj _ => by simp [JValue.jeq]
  | .jstr _, .jnull => by simp [JValue.jeq]
  | .jstr _, .jbool _ => by simp [JValue.jeq]
  | .jstr _, .jnum _ => by simp [JValue.jeq]
  | .jstr _, .jarr _ => by simp [JValue.jeq]
  | .jstr _, .jobj _ => by simp [JValue.jeq]
  | .jarr _, .jnull => by simp [JValue.jeq]
  | .jarr _, .jbool _ => by simp [JValue.jeq]
  | .jarr _, .jnum _ => by simp [JValue.jeq]
  | .jarr _, .jstr _ => by simp [JValue.jeq]
  | .jarr _, .jobj _ => by simp [JValue.jeq]
  | .jobj _, .jnull => by simp [JValue.jeq]
  | .jobj _, .jbool _ => by simp [JValue.jeq]
  | .jobj _, .jnum _ => by simp [JValue.jeq]
  | .jobj _, .jstr _ => by simp [JValue.jeq]
  | .jobj _, .jarr _ => by simp [JValue.jeq]

theorem JList.jeqList_iff : ∀ a b : JList, JList.jeq a b = true ↔ a = b
  | .nil, .nil => by simp [JList.jeq]
  | .cons x xs, .cons y ys => by
      simp [JList.jeq, JValue.jeq_iff x y, JList.jeqList_iff xs ys]
  | .nil, .cons _ _ => by simp [JList.jeq]
  | .cons _ _, .nil => by simp [JList.jeq]

theorem JFields.jeqFields_iff : ∀ a b : JFields, JFields.jeq a b = true ↔ a = b
  | .nil, .nil => by simp [JFields.jeq]
  | .cons k v xs, .cons k2 v2 ys => by
      simp [JFields.jeq, JValue.jeq_iff v v2, JFields.jeqFields_iff xs ys, and_assoc]
  | .nil, .cons _ _ _ => by simp [JFields.jeq]
  | .cons _ _ _, .nil => by simp [JFields.jeq]

end

/-! ## Properties of key equality -/

theorem dtEqb_true_iff (a b : DT) : dtEqb a b = true ↔ astimezoneUTC a = astimezoneUTC b := by
  simp [dtEqb]

theorem keyEqb_true_iff (k k2 : DT × JValue) : keyEqb k k2 = true ↔ keyCanon k = keyCanon k2 := by
  simp [keyEqb, dtEqb, keyCanon, JValue.jeq_iff, Prod.ext_iff]

theorem keyEqb_true_of (k k2 : DT × JValue) (h : keyCanon k = keyCanon k2) :
    keyEqb k k2 = true :=
  (keyEqb_true_iff k k2).mpr h

theorem keyEqb_false_of (k k2 : DT × JValue) (h : keyCanon k ≠ keyCanon k2) :
    keyEqb k k2 = false := by
  cases hx : keyEqb k k2 with
  | false => rfl
  | true => exact absurd ((keyEqb_true_iff k k2).mp hx) h

theorem keyEqb_refl (k : DT × JValue) : keyEqb k k = true :=
  keyEqb_true_of k k rfl

theorem countKey_congr (l : List NormalizedEvent) (k k2 : DT × JValue)
    (h : keyCanon k = keyCanon k2) : countKey l k = countKey l k2 := by
  unfold countKey
  apply List.countP_congr
  intro e _
  by_cases hc : keyCanon (e.hour, e.event_type) = keyCanon k
  · rw [keyEqb_true_of _ _ hc, keyEqb_true_of _ _ (hc.trans h)]
  · rw [keyEqb_false_of _ _ hc, keyEqb_false_of _ _ (fun hx => hc (hx.trans h.symm))]

/-! ## Properties of the aggregation loop -/

theorem bump_lookCnt (m : List ((DT × JValue) × Nat)) (k k2 : DT × JValue) :
    lookCnt (bump m k) k2 = lookCnt m k2 + (if keyEqb k k2 then 1 else 0) := by
  induction m with
  | nil => simp [bump, lookCnt]
  | cons kn rest ih =>
    obtain ⟨k0, n⟩ := kn
    by_cases h0 : keyCanon k0 = keyCanon k
    · rw [bump, if_pos (keyEqb_true_of _ _ h0)]
      by_cases h2 : keyCanon k0 = keyCanon k2
      · rw [lookCnt, lookCnt, if_pos (keyEqb_true_of _ _ h2), if_pos (keyEqb_true_of _ _ h2),
          if_pos (keyEqb_true_of _ _ (h0.symm.trans h2))]
      · rw [lookCnt, lookCnt, if_neg (by simp [keyEqb_false_of _ _ h2]),
          if_neg (by simp [keyEqb_false_of _ _ h2]),
          if_neg (by simp [keyEqb_false_of _ _ (fun hx => h2 (h0.trans hx))])]
        omega
    · rw [bump, if_neg (by simp [keyEqb_false_of _ _ h0])]
      by_cases h2 : keyCanon k0 = keyCanon k2
      · rw [lookCnt, lookCnt, if_pos (keyEqb_true_of _ _ h2), if_pos (keyEqb_true_of _ _ h2),
          if_neg (by simp [keyEqb_false_of _ _ (fun hx => h0 (h2.trans hx.symm))])]
        omega
      · rw [lookCnt, lookCnt, if_neg (by simp [keyEqb_false_of _ _ h2]),
          if_neg (by simp [keyEqb_false_of _ _ h2]), ih]

theorem bump_sumN (m : List ((DT × JValue) × Nat)) (k : DT × JValue) :
    sumN (bump m k) = sumN m + 1 := by
  induction m with
  | nil => simp [bump, sumN]
  | cons kn rest ih =>
    obtain ⟨k0, n⟩ := kn
    by_cases h0 : keyEqb k0 k = true
    · simp [bump, h0, sumN]
      omega
    · simp only [bump, Bool.not_eq_true] at h0 ⊢
      rw [if_neg (by simp [h0])]
      simp only [sumN, List.map_cons, List.sum_cons] at ih ⊢
      omega

theorem bump_keys (m : List ((DT × JValue) × Nat)) (k : DT × JValue) :
    ∀ kn ∈ bump m k, kn.1 ∈ m.map Prod.fst ∨ kn.1 = k := by
  induction m with
  | nil => simp [bump]
  | cons hd rest ih =>
    obtain ⟨k0, n⟩ := hd
    by_cases h0 : keyEqb k0 k = true
    · rw [bump, if_pos h0]
      intro kn hkn
      rcases List.mem_cons.mp hkn with h | h
      · left; simp [h]
      · left
        rw [List.map_cons]
        exact List.mem_cons_of_mem _ (List.mem_map.mpr ⟨kn, h, rfl⟩)
    · rw [bump, if_neg (by simp [Bool.not_eq_true] at h0; simp [h0])]
      intro kn hkn
      rcases List.mem_cons.mp hkn with h | h
      · left; simp [h]
      · rcases ih kn h with h2 | h2
        · left
          rw [List.map_cons]
          exact List.mem_cons_of_mem _ h2
        · right; exact h2

theorem bump_pairwise (m : List ((DT × JValue) × Nat)) (k : DT × JValue)
    (hpw : List.Pairwise (fun a b => keyCanon a.1 ≠ keyCanon b.1) m) :
    List.Pairwise (fun a b => keyCanon a.1 ≠ keyCanon b.1) (bump m k) := by
  induction m with
  | nil => simp [bump]
  | cons hd rest ih =>
    obtain ⟨k0, n⟩ := hd
    rw [List.pairwise_cons] at hpw
    by_cases h0 : keyEqb k0 k = true
    · rw [bump, if_pos h0, List.pairwise_cons]
      exact ⟨hpw.1, hpw.2⟩
    · rw [bump, if_neg (by simp [Bool.not_eq_true] at h0; simp [h0]), List.pairwise_cons]
      constructor
      · intro kn hkn
        rcases bump_keys rest k kn hkn with h | h
        · rcases List.mem_map.mp h with ⟨kn0, hkn0, hfst⟩
          rw [← hfst]
          exact hpw.1 kn0 hkn0
        · rw [h]
          intro hx
          rw [Bool.not_eq_true] at h0
          exact absurd (keyEqb_true_of _ _ hx) (by simp [h0])
      · exact ih hpw.2

theorem bump_cover (m : List ((DT × JValue) × Nat)) (k : DT × JValue) :
    ∃ kn ∈ bump m k, keyCanon kn.1 = keyCanon k := by
  induction m with
  | nil => exact ⟨(k, 1), by simp [bump], rfl⟩
  | cons hd rest ih =>
    obtain ⟨k0, n⟩ := hd
    by_cases h0 : keyEqb k0 k = true
    · exact ⟨(k0, n + 1), by rw [bump, if_pos h0]; simp, (keyEqb_true_iff _ _).mp h0⟩
    · obtain ⟨kn, hkn, hc⟩ := ih
      exact ⟨kn, by rw [bump, if_neg (by simp [Bool.not_eq_true] at h0; simp [h0])]; simp [hkn], hc⟩

theorem bump_keeps (m : List ((DT × JValue) × Nat)) (k : DT × JValue)
    (kn : (DT × JValue) × Nat) (h : kn ∈ m) : ∃ kn2 ∈ bump m k, kn2.1 = kn.1 := by
  induction m with
  | nil => cases h
  | cons hd rest ih =>
    obtain ⟨k0, n⟩ := hd
    by_cases h0 : keyEqb k0 k = true
    · rw [bump, if_pos h0]
      rcases List.mem_cons.mp h with he | he
      · exact ⟨(k0, n + 1), by simp, by rw [he]⟩
      · exact ⟨kn, by simp [he], rfl⟩
    · rw [bump, if_neg (by simp [Bool.not_eq_true] at h0; simp [h0])]
      rcases List.mem_cons.mp h with he | he
      · exact ⟨(k0, n), by simp, by rw [he]⟩
      · obtain ⟨kn2, hkn2, hfst⟩ := ih he
        exact ⟨kn2, by simp [hkn2], hfst⟩

theorem bump_ge1 (m : List ((DT × JValue) × Nat)) (k : DT × JValue)
    (h : ∀ kn ∈ m, 1 ≤ kn.2) : ∀ kn ∈ bump m k, 1 ≤ kn.2 := by
  induction m with
  | nil => simp [bump]
  | cons hd rest ih =>
    obtain ⟨k0, n⟩ := hd
    by_cases h0 : keyEqb k0 k = true
    · rw [bump, if_pos h0]
      intro kn hkn
      rcases List.mem_cons.mp hkn with he | he
      · rw [he]; omega
      · exact h kn (by simp [he])
    · rw [bump, if_neg (by simp [Bool.not_eq_true] at h0; simp [h0])]
      intro kn hkn
      rcases List.mem_cons.mp hkn with he | he
      · exact h kn (by simp [he])
      · exact ih (fun kn2 hkn2 => h kn2 (by simp [hkn2])) kn he

theorem aggLoop_lookCnt (l : List NormalizedEvent) :
    ∀ m k, lookCnt (aggLoop l m) k = lookCnt m k + countKey l k := by
  induction l with
  | nil => intro m k; simp [aggLoop, countKey]
  | cons e rest ih =>
    intro m k
    rw [aggLoop, ih, bump_lookCnt]
    unfold countKey
    rw [List.countP_cons]
    by_cases hp : keyEqb (e.hour, e.event_type) k = true
    · simp only [hp, if_true]
      omega
    · rw [Bool.not_eq_true] at hp
      simp only [hp, Bool.false_eq_true, if_false]
      omega

theorem aggLoop_sumN (l : List NormalizedEvent) :
    ∀ m, sumN (aggLoop l m) = sumN m + l.length := by
  induction l with
  | nil => intro m; simp [aggLoop]
  | cons e rest ih =>
    intro m
    rw [aggLoop, ih, bump_sumN, List.length_cons]
    omega

theorem aggLoop_pairwise (l : List NormalizedEvent) :
    ∀ m, List.Pairwise (fun a b => keyCanon a.1 ≠ keyCanon b.1) m →
    List.Pairwise (fun a b => keyCanon a.1 ≠ keyCanon b.1) (aggLoop l m) := by
  induction l with
  | nil => intro m hm; exact hm
  | cons e rest ih =>
    intro m hm
    exact ih _ (bump_pairwise m (e.hour, e.event_type) hm)

theorem aggLoop_ge1 (l : List NormalizedEvent) :
    ∀ m, (∀ kn ∈ m, 1 ≤ kn.2) → ∀ kn ∈ aggLoop l m, 1 ≤ kn.2 := by
  induction l with
  | nil => intro m hm; exact hm
  | cons e rest ih =>
    intro m hm
    exact ih _ (bump_ge1 m (e.hour, e.event_type) hm)

theorem aggLoop_keeps (l : List NormalizedEvent) :
    ∀ m kn, kn ∈ m → ∃ kn2 ∈ aggLoop l m, kn2.1 = kn.1 := by
  induction l with
  | nil => intro m kn h; exact ⟨kn, h, rfl⟩
  | cons e rest ih =>
    intro m kn h
    obtain ⟨kn2, hkn2, hfst⟩ := bump_keeps m (e.hour, e.event_type) kn h
    obtain ⟨kn3, hkn3, hfst3⟩ := ih _ kn2 hkn2
    exact ⟨kn3, hkn3, hfst3.trans hfst⟩

theorem aggLoop_cover (l : List NormalizedEvent) :
    ∀ m, ∀ e ∈ l, ∃ kn ∈ aggLoop l m, keyCanon kn.1 = keyCanon (e.hour, e.event_type) := by
  induction l with
  | nil => intro m e he; cases he
  | cons e0 rest ih =>
    intro m e he
    rcases List.mem_cons.mp he with he0 | hrest
    · obtain ⟨kn, hkn, hc⟩ := bump_cover m (e0.hour, e0.event_type)
      obtain ⟨kn2, hkn2, hfst⟩ := aggLoop_keeps rest _ kn hkn
      rw [aggLoop]
      exact ⟨kn2, hkn2, by rw [hfst, hc, he0]⟩
    · rw [aggLoop]
      exact ih _ e hrest

theorem lookCnt_mem (m : List ((DT × JValue) × Nat))
    (hpw : List.Pairwise (fun a b => keyCanon a.1 ≠ keyCanon b.1) m) :
    ∀ kn ∈ m, lookCnt m kn.1 = kn.2 := by
  induction m with
  | nil => simp
  | cons hd rest ih =>
    obtain ⟨k0, n⟩ := hd
    rw [List.pairwise_cons] at hpw
    intro kn hkn
    rcases List.mem_cons.mp hkn with he | he
    · rw [he, lookCnt, if_pos (keyEqb_refl _)]
    · rw [lookCnt, if_neg (by simp [keyEqb_false_of _ _ (hpw.1 kn he)])]
      exact ih hpw.2 kn he

/-- C3: for every finite multiset of NormalizedEvents, the aggregator output
has pairwise distinct (hour, event_type) keys, each record's `total_events` is
the exact count of input events sharing its key (hence at least 1), the counts
sum to the input length, and every input event's key is represented. -/
theorem C3_aggregate_exact_counts (l : List NormalizedEvent) :
    List.Pairwise (fun r1 r2 =>
      keyCanon (r1.hour, r1.event_type) ≠ keyCanon (r2.hour, r2.event_type))
      (aggregate_events l) ∧
    (∀ r ∈ aggregate_events l,
      r.total_events = countKey l (r.hour, r.event_type) ∧ 1 ≤ r.total_events) ∧
    ((aggregate_events l).map (fun r => r.total_events)).sum = l.length ∧
    (∀ e ∈ l, ∃ r ∈ aggregate_events l,
      keyCanon (r.hour, r.event_type) = keyCanon (e.hour, e.event_type)) := by
  have hpw := aggLoop_pairwise l [] (by simp)
  refine ⟨?_, ?_, ?_, ?_⟩
  · rw [aggregate_events, List.pairwise_map]
    exact hpw
  · intro r hr
    rw [aggregate_events] at hr
    obtain ⟨kn, hkn, hr⟩ := List.mem_map.mp hr
    have h1 := lookCnt_mem _ hpw kn hkn
    have h2 := aggLoop_lookCnt l [] kn.1
    have h3 := aggLoop_ge1 l [] (by simp) kn hkn
    simp only [lookCnt] at h2
    subst hr
    dsimp only
    rw [Prod.mk.eta]
    exact ⟨by omega, h3⟩
  · rw [aggregate_events, List.map_map]
    have h := aggLoop_sumN l []
    simp only [sumN] at h
    simpa using h
  · intro e he
    obtain ⟨kn, hkn, hc⟩ := aggLoop_cover l [] e he
    exact ⟨⟨kn.1.1, kn.1.2, kn.2⟩, List.mem_map.mpr ⟨kn, hkn, rfl⟩, hc⟩

/-- Witness for C3 at a concrete two-event input with a repeated key. -/
theorem C3_witness :
    ((aggregate_events [⟨⟨2024, 3, 1, 13, 0, 0, 0, 0⟩, .jstr "click"⟩,
      ⟨⟨2024, 3, 1, 13, 0, 0, 0, 0⟩, .jstr "click"⟩]).map (fun r => r.total_events)).sum = 2 :=
  (C3_aggregate_exact_counts [⟨⟨2024, 3, 1, 13, 0, 0, 0, 0⟩, .jstr "click"⟩,
      ⟨⟨2024, 3, 1, 13, 0, 0, 0, 0⟩, .jstr "click"⟩]).2.2.1

theorem agg_mem_iff (l : List NormalizedEvent) (r : AggregateRecord) :
    (∃ r2 ∈ aggregate_events l, recEqb r r2 = true) ↔
    (r.total_events = countKey l (r.hour, r.event_type) ∧ 1 ≤ r.total_events) := by
  have hpw := aggLoop_pairwise l [] (by simp)
  constructor
  · rintro ⟨r2, hr2, heq⟩
    rw [recEqb, Bool.and_eq_true] at heq
    obtain ⟨hkey, htot⟩ := heq
    have hc := (keyEqb_true_iff _ _).mp hkey
    have htot2 : r.total_events = r2.total_events := by simpa using htot
    rw [aggregate_events] at hr2
    obtain ⟨kn, hkn, hr2⟩ := List.mem_map.mp hr2
    have h1 := lookCnt_mem _ hpw kn hkn
    have h2 := aggLoop_lookCnt l [] kn.1
    have h3 := aggLoop_ge1 l [] (by simp) kn hkn
    simp only [lookCnt] at h2
    subst hr2
    dsimp only at htot2 hc
    rw [Prod.mk.eta] at hc
    have hck : countKey l (r.hour, r.event_type) = countKey l kn.1 :=
      countKey_congr l _ _ hc
    constructor
    · rw [htot2, hck]
      omega
    · omega
  · rintro ⟨htot, hpos⟩
    have hcnt : 0 < countKey l (r.hour, r.event_type) := by omega
    rw [countKey] at hcnt
    obtain ⟨e, he, hpe⟩ := List.countP_pos_iff.mp hcnt
    obtain ⟨kn, hkn, hc⟩ := aggLoop_cover l [] e he
    have hpe2 := (keyEqb_true_iff _ _).mp hpe
    have hckey : keyCanon kn.1 = keyCanon (r.hour, r.event_type) := hc.trans hpe2
    have h1 := lookCnt_mem _ hpw kn hkn
    have h2 := aggLoop_lookCnt l [] kn.1
    simp only [lookCnt] at h2
    refine ⟨⟨kn.1.1, kn.1.2, kn.2⟩, List.mem_map.mpr ⟨kn, hkn, rfl⟩, ?_⟩
    rw [recEqb, Bool.and_eq_true]
    constructor
    · dsimp only
      rw [Prod.mk.eta]
      exact keyEqb_true_of _ _ hckey.symm
    · dsimp only
      have hkc : kn.2 = countKey l (r.hour, r.event_type) := by
        rw [← countKey_congr l _ _ hckey]
        omega
      simp [htot, hkc]

/-- C8: the aggregator is a pure function of the input multiset — permuting
the input list leaves the set of aggregate records unchanged (membership up to
Python record equality is the same on both sides). -/
theorem C8_aggregate_permutation_invariant (l₁ l₂ : List NormalizedEvent)
    (h : l₁.Perm l₂) (r : AggregateRecord) :
    (∃ r1 ∈ aggregate_events l₁, recEqb r r1 = true) ↔
    (∃ r2 ∈ aggregate_events l₂, recEqb r r2 = true) := by
  rw [agg_mem_iff, agg_mem_iff]
  have hck : countKey l₁ (r.hour, r.event_type) = countKey l₂ (r.hour, r.event_type) :=
    h.countP_eq _
  rw [hck]

/-- Witness for C8 at a concrete transposed pair of events. -/
theorem C8_witness :
    ((∃ r1 ∈ aggregate_events [⟨⟨2024, 3, 1, 13, 0, 0, 0, 0⟩, .jstr "click"⟩,
        ⟨⟨2024, 3, 1, 14, 0, 0, 0, 0⟩, .jstr "view"⟩],
      recEqb ⟨⟨2024, 3, 1, 13, 0, 0, 0, 0⟩, .jstr "click", 1⟩ r1 = true) ↔
    (∃ r2 ∈ aggregate_events [⟨⟨2024, 3, 1, 14, 0, 0, 0, 0⟩, .jstr "view"⟩,
        ⟨⟨2024, 3, 1, 13, 0, 0, 0, 0⟩, .jstr "click"⟩],
      recEqb ⟨⟨2024, 3, 1, 13, 0, 0, 0, 0⟩, .jstr "click", 1⟩ r2 = true)) :=
  C8_aggregate_permutation_invariant _ _
    (List.Perm.swap ⟨⟨2024, 3, 1, 14, 0, 0, 0, 0⟩, .jstr "view"⟩
      ⟨⟨2024, 3, 1, 13, 0, 0, 0, 0⟩, .jstr "click"⟩ [])
    ⟨⟨2024, 3, 1, 13, 0, 0, 0, 0⟩, .jstr "click", 1⟩

/-! ## Properties of the writer's grouping loop -/

theorem dtEqb_true_of (a b : DT) (h : astimezoneUTC a = astimezoneUTC b) : dtEqb a b = true := by
  simp [dtEqb, h]

theorem dtEqb_false_of (a b : DT) (h : astimezoneUTC a ≠ astimezoneUTC b) : dtEqb a b = false := by
  simp [dtEqb, h]

theorem dtEqb_refl (a : DT) : dtEqb a a = true := by
  simp [dtEqb]

theorem addRec_keys (gs : List (DT × List AggregateRecord)) (r : AggregateRecord) :
    ∀ g ∈ addRec gs r, g.1 ∈ gs.map Prod.fst ∨ g.1 = r.hour := by
  induction gs with
  | nil => simp [addRec]
  | cons hd rest ih =>
    obtain ⟨k, rs⟩ := hd
    by_cases h0 : dtEqb k r.hour = true
    · rw [addRec, if_pos h0]
      intro g hg
      rcases List.mem_cons.mp hg with h | h
      · left; simp [h]
      · left
        rw [List.map_cons]
        exact List.mem_cons_of_mem _ (List.mem_map.mpr ⟨g, h, rfl⟩)
    · rw [addRec, if_neg (by simp [Bool.not_eq_true] at h0; simp [h0])]
      intro g hg
      rcases List.mem_cons.mp hg with h | h
      · left; simp [h]
      · rcases ih g h with h2 | h2
        · left
          rw [List.map_cons]
          exact List.mem_cons_of_mem _ h2
        · right; exact h2

theorem addRec_pairwise (gs : List (DT × List AggregateRecord)) (r : AggregateRecord)
    (hpw : List.Pairwise (fun a b => astimezoneUTC a.1 ≠ astimezoneUTC b.1) gs) :
    List.Pairwise (fun a b => astimezoneUTC a.1 ≠ astimezoneUTC b.1) (addRec gs r) := by
  induction gs with
  | nil => simp [addRec]
  | cons hd rest ih =>
    obtain ⟨k, rs⟩ := hd
    rw [List.pairwise_cons] at hpw
    by_cases h0 : dtEqb k r.hour = true
    · rw [addRec, if_pos h0, List.pairwise_cons]
      exact ⟨hpw.1, hpw.2⟩
    · rw [addRec, if_neg (by simp [Bool.not_eq_true] at h0; simp [h0]), List.pairwise_cons]
      constructor
      · intro g hg
        rcases addRec_keys rest r g hg with h | h
        · rcases List.mem_map.mp h with ⟨g0, hg0, hfst⟩
          rw [← hfst]
          exact hpw.1 g0 hg0
        · rw [h]
          intro hx
          rw [Bool.not_eq_true] at h0
          exact absurd (dtEqb_true_of _ _ hx) (by simp [h0])
      · exact ih hpw.2

theorem addRec_cover (gs : List (DT × List AggregateRecord)) (r : AggregateRecord) :
    ∃ g ∈ addRec gs r, astimezoneUTC g.1 = astimezoneUTC r.hour := by
  induction gs with
  | nil => exact ⟨(r.hour, [r]), by simp [addRec], rfl⟩
  | cons hd rest ih =>
    obtain ⟨k, rs⟩ := hd
    by_cases h0 : dtEqb k r.hour = true
    · exact ⟨(k, rs ++ [r]), by rw [addRec, if_pos h0]; simp, (dtEqb_true_iff _ _).mp h0⟩
    · obtain ⟨g, hg, hc⟩ := ih
      exact ⟨g, by rw [addRec, if_neg (by simp [Bool.not_eq_true] at h0; simp [h0])]; simp [hg], hc⟩

theorem addRec_keeps (gs : List (DT × List AggregateRecord)) (r : AggregateRecord)
    (g : DT × List AggregateRecord) (h : g ∈ gs) : ∃ g2 ∈ addRec gs r, g2.1 = g.1 := by
  induction gs with
  | nil => cases h
  | cons hd rest ih =>
    obtain ⟨k, rs⟩ := hd
    by_cases h0 : dtEqb k r.hour = true
    · rw [addRec, if_pos h0]
      rcases List.mem_cons.mp h with he | he
      · exact ⟨(k, rs ++ [r]), by simp, by rw [he]⟩
      · exact ⟨g, by simp [he], rfl⟩
    · rw [addRec, if_neg (by simp [Bool.not_eq_true] at h0; simp [h0])]
      rcases List.mem_cons.mp h with he | he
      · exact ⟨(k, rs), by simp, by rw [he]⟩
      · obtain ⟨g2, hg2, hfst⟩ := ih he
        exact ⟨g2, by simp [hg2], hfst⟩

theorem addRec_filter (gs : List (DT × List AggregateRecord)) (r : AggregateRecord)
    (p : List AggregateRecord)
    (hflt : ∀ g ∈ gs, g.2 = p.filter (fun x => dtEqb g.1 x.hour))
    (hpw : List.Pairwise (fun a b => astimezoneUTC a.1 ≠ astimezoneUTC b.1) gs)
    (hnew : (∀ g ∈ gs, dtEqb g.1 r.hour = false) →
      List.filter (fun x => dtEqb r.hour x.hour) p = []) :
    ∀ g ∈ addRec gs r, g.2 = (p ++ [r]).filter (fun x => dtEqb g.1 x.hour) := by
  induction gs with
  | nil =>
    intro g hg
    simp only [addRec, List.mem_singleton] at hg
    subst hg
    rw [List.filter_append]
    dsimp only
    rw [hnew (by simp), List.nil_append, List.filter_cons, if_pos (by simp [dtEqb_refl])]
    simp
  | cons hd rest ih =>
    obtain ⟨k, rs⟩ := hd
    rw [List.pairwise_cons] at hpw
    by_cases h0 : dtEqb k r.hour = true
    · rw [addRec, if_pos h0]
      intro g hg
      rcases List.mem_cons.mp hg with he | he
      · subst he
        dsimp only
        rw [List.filter_append, ← hflt (k, rs) (by simp)]
        dsimp only
        rw [List.filter_cons, if_pos (by simp [h0]), List.filter_nil]
      · have hg2 : dtEqb g.1 r.hour = false := by
          apply dtEqb_false_of
          intro hx
          have hk := (dtEqb_true_iff _ _).mp h0
          have hne := hpw.1 g he
          exact hne (hk.trans hx.symm)
        rw [hflt g (by simp [he]), List.filter_append]
        rw [List.filter_cons, if_neg (by simp [hg2]), List.filter_nil]
        simp
    · rw [addRec, if_neg (by simp [Bool.not_eq_true] at h0; simp [h0])]
      intro g hg
      rcases List.mem_cons.mp hg with he | he
      · subst he
        dsimp only
        rw [Bool.not_eq_true] at h0
        rw [List.filter_append, ← hflt (k, rs) (by simp)]
        dsimp only
        rw [List.filter_cons, if_neg (by simp [h0]), List.filter_nil]
        simp
      · apply ih (fun g2 hg2 => hflt g2 (by simp [hg2])) hpw.2 ?_ g he
        intro hall
        apply hnew
        intro g2 hg2
        rcases List.mem_cons.mp hg2 with he2 | he2
        · rw [he2, Bool.not_eq_true] at *
          rw [he2]
          exact h0
        · exact hall g2 he2

theorem groupLoop_inv (l : List AggregateRecord) :
    ∀ gs p,
    (∀ g ∈ gs, g.2 = p.filter (fun x => dtEqb g.1 x.hour)) →
    List.Pairwise (fun a b => astimezoneUTC a.1 ≠ astimezoneUTC b.1) gs →
    (∀ e ∈ p, ∃ g ∈ gs, dtEqb g.1 e.hour = true) →
    (∀ g ∈ groupLoop l gs, g.2 = (p ++ l).filter (fun x => dtEqb g.1 x.hour)) ∧
    List.Pairwise (fun a b => astimezoneUTC a.1 ≠ astimezoneUTC b.1) (groupLoop l gs) ∧
    (∀ e ∈ p ++ l, ∃ g ∈ groupLoop l gs, dtEqb g.1 e.hour = true) := by
  induction l with
  | nil =>
    intro gs p hflt hpw hcov
    rw [groupLoop, List.append_nil]
    exact ⟨hflt, hpw, hcov⟩
  | cons r rest ih =>
    intro gs p hflt hpw hcov
    have hnew : (∀ g ∈ gs, dtEqb g.1 r.hour = false) →
        List.filter (fun x => dtEqb r.hour x.hour) p = [] := by
      intro hall
      rw [List.filter_eq_nil_iff]
      intro e he hbe
      obtain ⟨g, hg, hge⟩ := hcov e he
      have h1 := (dtEqb_true_iff _ _).mp hge
      have h2 := (dtEqb_true_iff _ _).mp (by simpa using hbe)
      have : dtEqb g.1 r.hour = true := dtEqb_true_of _ _ (h1.trans h2.symm)
      rw [hall g hg] at this
      cases this
    have h1 := addRec_filter gs r p hflt hpw hnew
    have h2 := addRec_pairwise gs r hpw
    have h3 : ∀ e ∈ p ++ [r], ∃ g ∈ addRec gs r, dtEqb g.1 e.hour = true := by
      intro e he
      rcases List.mem_append.mp he with hp | hr
      · obtain ⟨g, hg, hge⟩ := hcov e hp
        obtain ⟨g2, hg2, hfst⟩ := addRec_keeps gs r g hg
        exact ⟨g2, hg2, by rw [hfst]; exact hge⟩
      · rw [List.mem_singleton] at hr
        obtain ⟨g, hg, hc⟩ := addRec_cover gs r
        refine ⟨g, hg, ?_⟩
        rw [hr]
        exact dtEqb_true_of _ _ hc
    have := ih (addRec gs r) (p ++ [r]) h1 h2 h3
    rw [groupLoop]
    rwa [List.append_assoc, List.singleton_append] at this

/-- C6 (amended): the writer emits exactly one CSV document per distinct hour
instant; each document is the header row followed by exactly one data row per
record of that hour's group (the group being exactly the records whose hour
equals the key); the path is built from the group key's own zero-padded
calendar fields, which agree with the UTC calendar fields exactly when the
key's offset is zero. -/
theorem C6_writer_one_document_per_hour (rs : List AggregateRecord) :
    write_hourly_csv_summaries rs =
      (groupLoop rs []).map (fun g => (output_path g.1, csvDoc g.2)) ∧
    List.Pairwise (fun g1 g2 => astimezoneUTC g1.1 ≠ astimezoneUTC g2.1) (groupLoop rs []) ∧
    (∀ g ∈ groupLoop rs [], g.2 = rs.filter (fun x => dtEqb g.1 x.hour)) ∧
    (∀ r ∈ rs, ∃ g ∈ groupLoop rs [], dtEqb g.1 r.hour = true) ∧
    (∀ g ∈ groupLoop rs [], csvDoc g.2 =
      csvLine ["hour", "event_type", "total_events"] ++
      String.join (g.2.map (fun r =>
        csvLine [isoformat r.hour, pyStr r.event_type, toString r.total_events]))) ∧
    (∀ g ∈ groupLoop rs [], g.1.utcoffset = 0 → 0 ≤ g.1.hour → g.1.hour ≤ 23 →
      0 ≤ g.1.minute → g.1.minute ≤ 59 → output_path g.1 = utcCalendarPath g.1) := by
  obtain ⟨hflt, hpw, hcov⟩ := groupLoop_inv rs [] [] (by simp) (by simp) (by simp)
  refine ⟨rfl, hpw, by simpa using hflt, by simpa using hcov, fun g _ => rfl, ?_⟩
  intro g _ h0 hh0 hh1 hm0 hm1
  have hfix : astimezoneUTC g.1 = g.1 := by
    simp only [astimezoneUTC, h0, sub_zero]
    rw [if_neg (by omega), if_neg (by omega)]
    ext
    all_goals simp
    · omega
    · omega
    · omega
  rw [utcCalendarPath, hfix]

/-- Counterexample for C6: for an hour value carrying the offset +05:30, the
output path is built from the hour's own calendar fields (2024-03-02, hour 02),
not from the UTC calendar fields of that instant (2024-03-01, hour 20). -/
theorem C6_counterexample :
    write_hourly_csv_summaries [⟨⟨2024, 3, 2, 2, 0, 0, 0, 330⟩, .jstr "click", 1⟩] =
      [("summaries/2024/03/02/hour=02/summary.csv",
        "hour,event_type,total_events\r\n2024-03-02T02:00:00+05:30,click,1\r\n")] ∧
    utcCalendarPath ⟨2024, 3, 2, 2, 0, 0, 0, 330⟩ =
      "summaries/2024/03/01/hour=20/summary.csv" ∧
    "summaries/2024/03/02/hour=02/summary.csv" ≠
      "summaries/2024/03/01/hour=20/summary.csv" :=
  ⟨by decide, by decide, by decide⟩

/-- Witness for C6 at a concrete UTC-offset hour: the emitted path agrees with
the spec's UTC-calendar-fields path. -/
theorem C6_witness :
    output_path (⟨2024, 3, 1, 13, 0, 0, 0, 0⟩ : DT) =
      utcCalendarPath ⟨2024, 3, 1, 13, 0, 0, 0, 0⟩ :=
  (C6_writer_one_document_per_hour [⟨⟨2024, 3, 1, 13, 0, 0, 0, 0⟩, .jstr "click", 5⟩]).2.2.2.2.2
    (⟨2024, 3, 1, 13, 0, 0, 0, 0⟩, [⟨⟨2024, 3, 1, 13, 0, 0, 0, 0⟩, .jstr "click", 5⟩])
    (List.mem_singleton.mpr rfl) rfl (by decide) (by decide) (by decide) (by decide)

/-! ## Properties of the normalizer -/

theorem fromiso_valid (s : String) (ts : DT) (h : fromisoformat s = some ts) :
    validDTb ts = true := by
  rw [fromisoformat] at h
  cases hr : rawParseISO s with
  | none => rw [hr] at h; cases h
  | some d =>
    rw [hr] at h
    dsimp only at h
    by_cases hv : validDTb d = true
    · rw [if_pos hv] at h
      injection h with h2
      rw [← h2]
      exact hv
    · rw [Bool.not_eq_true] at hv
      rw [if_neg (by simp [hv])] at h
      cases h

theorem trunc_year (d : DT) : (truncToHour d).year = d.year := rfl

theorem trunc_month (d : DT) : (truncToHour d).month = d.month := rfl

theorem trunc_day (d : DT) : (truncToHour d).day = d.day := rfl

theorem trunc_hour (d : DT) : (truncToHour d).hour = d.hour := rfl

theorem trunc_minute (d : DT) : (truncToHour d).minute = 0 := rfl

theorem trunc_second (d : DT) : (truncToHour d).second = 0 := rfl

theorem trunc_microsecond (d : DT) : (truncToHour d).microsecond = 0 := rfl

theorem trunc_utcoffset (d : DT) : (truncToHour d).utcoffset = d.utcoffset := rfl

theorem prevDay_trunc (d : DT) : prevDay (truncToHour d) = truncToHour (prevDay d) := by
  unfold prevDay truncToHour
  dsimp only
  split_ifs <;> rfl

theorem nextDay_trunc (d : DT) : nextDay (truncToHour d) = truncToHour (nextDay d) := by
  unfold nextDay truncToHour
  dsimp only
  split_ifs <;> rfl

theorem trunc_astimezone (ts : DT) (hoff : ts.utcoffset % 60 = 0)
    (hm0 : 0 ≤ ts.minute) (hm1 : ts.minute ≤ 59) :
    astimezoneUTC (truncToHour ts) = utcHourStart ts := by
  obtain ⟨k, hk⟩ : (60 : Int) ∣ ts.utcoffset := Int.dvd_of_emod_eq_zero hoff
  rw [utcHourStart]
  simp only [astimezoneUTC, trunc_hour, trunc_minute, trunc_utcoffset, add_zero]
  have e1 : (ts.hour * 60 + ts.minute - ts.utcoffset < 0) ↔
      (ts.hour * 60 - ts.utcoffset < 0) := by omega
  have e2 : (1440 ≤ ts.hour * 60 + ts.minute - ts.utcoffset) ↔
      (1440 ≤ ts.hour * 60 - ts.utcoffset) := by omega
  simp only [e1, e2]
  split_ifs with h1 h2
  · rw [prevDay_trunc]
    ext <;>
      first
      | rfl
      | (simp only [trunc_year, trunc_month, trunc_day, trunc_hour, trunc_minute,
           trunc_second, trunc_microsecond, trunc_utcoffset]
         omega)
  · rw [nextDay_trunc]
    ext <;>
      first
      | rfl
      | (simp only [trunc_year, trunc_month, trunc_day, trunc_hour, trunc_minute,
           trunc_second, trunc_microsecond, trunc_utcoffset]
         omega)
  · ext <;>
      first
      | rfl
      | (simp only [trunc_year, trunc_month, trunc_day, trunc_hour, trunc_minute,
           trunc_second, trunc_microsecond, trunc_utcoffset]
         omega)

/-- C1 (amended): for a RawEvent whose `event_timestamp` parses (with `Z`
rewritten to `+00:00`), the normalizer emits the parsed timestamp with minute,
second and microsecond zeroed in the timestamp's own UTC offset, which it
preserves rather than converting to UTC; whenever that offset is a whole
number of hours (in particular `Z`/`+00:00`), the emitted hour equals the
timestamp converted to UTC and truncated to the start of its hour. -/
theorem C1_normalizer_hour_truncation (e : JValue) (s : String) (ts : DT) (v : JValue)
    (hts : getItem e "event_timestamp" = .found (.jstr s))
    (hparse : fromisoformat (pyReplace s "Z" "+00:00") = some ts)
    (hv : getItem e "event_type" = .found v) :
    normalize_event e = .ok ⟨truncToHour ts, v⟩ ∧
    (truncToHour ts).minute = 0 ∧ (truncToHour ts).second = 0 ∧
    (truncToHour ts).microsecond = 0 ∧ (truncToHour ts).utcoffset = ts.utcoffset ∧
    (ts.utcoffset % 60 = 0 → astimezoneUTC (truncToHour ts) = utcHourStart ts) := by
  have hvd := fromiso_valid _ _ hparse
  simp only [validDTb, Bool.and_eq_true, decide_eq_true_eq] at hvd
  refine ⟨?_, rfl, rfl, rfl, rfl, ?_⟩
  · simp [normalize_event, hts, hparse, hv]
  · intro hoff
    exact trunc_astimezone ts hoff (by tauto) (by tauto)

/-- Counterexample for C1: for the offset +05:30 the emitted hour bucket
13:00+05:30 is the instant 07:30 UTC, which is not the UTC hour start
08:00 UTC of the parsed timestamp, and its offset is not zero. -/
theorem C1_counterexample :
    fromisoformat (pyReplace "2024-03-01T13:47:22+05:30" "Z" "+00:00") =
      some ⟨2024, 3, 1, 13, 47, 22, 0, 330⟩ ∧
    normalize_events [.jobj (.cons "event_timestamp" (.jstr "2024-03-01T13:47:22+05:30")
      (.cons "event_type" (.jstr "click") .nil))] =
      .ok [⟨⟨2024, 3, 1, 13, 0, 0, 0, 330⟩, .jstr "click"⟩] ∧
    astimezoneUTC ⟨2024, 3, 1, 13, 0, 0, 0, 330⟩ ≠
      utcHourStart ⟨2024, 3, 1, 13, 47, 22, 0, 330⟩ ∧
    (⟨2024, 3, 1, 13, 0, 0, 0, 330⟩ : DT).utcoffset ≠ 0 :=
  ⟨rfl, rfl, by decide, by decide⟩

/-- Witness for C1 at a `Z`-suffixed timestamp: the emitted hour is the UTC
hour start. -/
theorem C1_witness :
    astimezoneUTC (truncToHour ⟨2024, 3, 1, 13, 47, 22, 0, 0⟩) =
      utcHourStart ⟨2024, 3, 1, 13, 47, 22, 0, 0⟩ :=
  (C1_normalizer_hour_truncation
    (.jobj (.cons "event_timestamp" (.jstr "2024-03-01T13:47:22Z")
      (.cons "event_type" (.jstr "click") .nil)))
    "2024-03-01T13:47:22Z" ⟨2024, 3, 1, 13, 47, 22, 0, 0⟩ (.jstr "click")
    rfl rfl rfl).2.2.2.2.2 rfl

theorem norm_app_err (pre : List JValue) (e : JValue) (post : List JValue) (err : RunError)
    (hpre : ∀ x ∈ pre, normFine x = true) (he : normalize_event e = .error err) :
    normalize_events (pre ++ e :: post) = .error err := by
  induction pre with
  | nil => simp [normalize_events, he]
  | cons x rest ih =>
    have hx := hpre x (by simp)
    cases hnx : normalize_event x with
    | error e2 => simp [normFine, hnx] at hx
    | ok r =>
      rw [List.cons_append, normalize_events, hnx, ih (fun y hy => hpre y (by simp [hy]))]

/-- C2 (amended): a record whose `event_timestamp` is missing or unparseable
aborts the whole normalization with the `ValueError` (the spec's
ValidationError) and no partial result is returned; but a record missing only
`event_type` aborts with a `KeyError`, a different error kind. -/
theorem C2_normalizer_error_kinds (pre post : List JValue) (e : JValue)
    (hpre : ∀ x ∈ pre, normFine x = true) :
    (getItem e "event_timestamp" = .keyMissing →
      normalize_events (pre ++ e :: post) = .error .timestampValueError) ∧
    (∀ s, getItem e "event_timestamp" = .found (.jstr s) →
      fromisoformat (pyReplace s "Z" "+00:00") = none →
      normalize_events (pre ++ e :: post) = .error .timestampValueError) ∧
    (∀ s ts, getItem e "event_timestamp" = .found (.jstr s) →
      fromisoformat (pyReplace s "Z" "+00:00") = some ts →
      getItem e "event_type" = .keyMissing →
      normalize_events (pre ++ e :: post) = .error .keyError) := by
  refine ⟨?_, ?_, ?_⟩
  · intro h
    exact norm_app_err pre e post _ hpre (by simp [normalize_event, h])
  · intro s h1 h2
    exact norm_app_err pre e post _ hpre (by simp [normalize_event, h1, h2])
  · intro s ts h1 h2 h3
    exact norm_app_err pre e post _ hpre (by simp [normalize_event, h1, h2, h3])

/-- Counterexample for C2: a record with a valid timestamp but no `event_type`
key raises the `KeyError`, which is not the ValidationError kind. -/
theorem C2_counterexample :
    normalize_events [.jobj (.cons "event_timestamp" (.jstr "2024-03-01T13:47:22Z") .nil)] =
      .error .keyError ∧
    RunError.keyError ≠ RunError.timestampValueError :=
  ⟨rfl, by decide⟩

/-- Witness for C2 at a concrete record missing only `event_type`. -/
theorem C2_witness :
    normalize_events [.jobj (.cons "event_timestamp" (.jstr "2024-03-01T13:47:22Z") .nil)] =
      .error .keyError :=
  (C2_normalizer_error_kinds [] []
    (.jobj (.cons "event_timestamp" (.jstr "2024-03-01T13:47:22Z") .nil))
    (by simp)).2.2 "2024-03-01T13:47:22Z" ⟨2024, 3, 1, 13, 47, 22, 0, 0⟩ rfl rfl rfl

/-! ## Properties of the parser -/

theorem dparse_prefix (dec : List Nat → Option String) (jl : String → Option JValue)
    (pre rest : List Blob) (err : RunError)
    (hpre : ∀ a ∈ pre, fileFine dec jl a = true)
    (hrest : download_and_parse_events dec jl rest = .error err) :
    download_and_parse_events dec jl (pre ++ rest) = .error err := by
  induction pre with
  | nil => simpa using hrest
  | cons a pre2 ih =>
    have ha := hpre a (by simp)
    cases hd : dec a.content with
    | none => simp [fileFine, hd] at ha
    | some c =>
      cases hj : jl c with
      | none => simp [fileFine, hd, hj] at ha
      | some j =>
        cases j with
        | jarr es =>
          simp [download_and_parse_events, hd, hj,
            ih (fun y hy => hpre y (by simp [hy]))]
        | jnull => simp [fileFine, hd, hj] at ha
        | jbool x => simp [fileFine, hd, hj] at ha
        | jnum x => simp [fileFine, hd, hj] at ha
        | jstr x => simp [fileFine, hd, hj] at ha
        | jobj fs => simp [fileFine, hd, hj] at ha

/-- C5: the parser aborts the whole run (no partial result) at the first file
whose bytes do not decode (UnicodeDecodeError), whose text is not JSON
(JSONDecodeError), or whose top-level value is not an array (the schema
ValueError) — in particular a file holding a top-level JSON object. -/
theorem C5_parser_fatal_errors (dec : List Nat → Option String) (jl : String → Option JValue)
    (pre post : List Blob) (b : Blob)
    (hpre : ∀ a ∈ pre, fileFine dec jl a = true) :
    (dec b.content = none →
      download_and_parse_events dec jl (pre ++ b :: post) = .error (.decodingError b.name)) ∧
    (∀ c, dec b.content = some c → jl c = none →
      download_and_parse_events dec jl (pre ++ b :: post) = .error (.jsonDecodeError b.name)) ∧
    (∀ c j, dec b.content = some c → jl c = some j → (∀ es, j ≠ .jarr es) →
      download_and_parse_events dec jl (pre ++ b :: post) = .error (.schemaValueError b.name)) ∧
    (∀ c fs, dec b.content = some c → jl c = some (.jobj fs) →
      download_and_parse_events dec jl (pre ++ b :: post) = .error (.schemaValueError b.name)) := by
  refine ⟨?_, ?_, ?_, ?_⟩
  · intro h
    exact dparse_prefix dec jl pre _ _ hpre (by simp [download_and_parse_events, h])
  · intro c h1 h2
    exact dparse_prefix dec jl pre _ _ hpre (by simp [download_and_parse_events, h1, h2])
  · intro c j h1 h2 h3
    apply dparse_prefix dec jl pre _ _ hpre
    cases j with
    | jarr es => exact absurd rfl (h3 es)
    | jnull => simp [download_and_parse_events, h1, h2]
    | jbool x => simp [download_and_parse_events, h1, h2]
    | jnum x => simp [download_and_parse_events, h1, h2]
    | jstr x => simp [download_and_parse_events, h1, h2]
    | jobj fs => simp [download_and_parse_events, h1, h2]
  · intro c fs h1 h2
    exact dparse_prefix dec jl pre _ _ hpre (by simp [download_and_parse_events, h1, h2])

/-- Witness for C5 at a file whose bytes do not decode. -/
theorem C5_witness :
    download_and_parse_events (fun _ => none) (fun _ => none) [⟨"f.json", 0, [1]⟩] =
      .error (.decodingError "f.json") :=
  (C5_parser_fatal_errors (fun _ => none) (fun _ => none) [] [] ⟨"f.json", 0, [1]⟩
    (by simp)).1 rfl

/-- C7: when every file decodes and parses to a JSON array, the parser returns
the concatenation of all array elements, files in the supplied order and
element order preserved within each file. -/
theorem C7_parser_concatenates_in_order (dec : List Nat → Option String)
    (jl : String → Option JValue) (blobs : List Blob) (f : Blob → JList)
    (h : ∀ b ∈ blobs, ∃ c, dec b.content = some c ∧ jl c = some (.jarr (f b))) :
    download_and_parse_events dec jl blobs =
      .ok (blobs.flatMap (fun b => (f b).toList)) := by
  induction blobs with
  | nil => simp [download_and_parse_events]
  | cons b rest ih =>
    obtain ⟨c, hd, hj⟩ := h b (by simp)
    simp only [download_and_parse_events, hd, hj, ih (fun y hy => h y (by simp [hy]))]
    simp [List.flatMap_cons]

/-- Witness for C7 at two concrete one-element files. -/
theorem C7_witness :
    download_and_parse_events (fun bs => some (if bs == [1] then "a" else "b"))
      (fun s => some (.jarr (if s == "a" then .cons (.jnum 1) .nil else .cons (.jnum 2) .nil)))
      [⟨"a.json", 0, [1]⟩, ⟨"b.json", 0, [2]⟩] =
      .ok [.jnum 1, .jnum 2] :=
  C7_parser_concatenates_in_order _ _ _
    (fun b => if b.content == [1] then .cons (.jnum 1) .nil else .cons (.jnum 2) .nil)
    (by
      intro b hb
      rcases List.mem_cons.mp hb with rfl | hb2
      · exact ⟨"a", rfl, rfl⟩
      rcases List.mem_cons.mp hb2 with rfl | h3
      · exact ⟨"b", rfl, rfl⟩
      cases h3)

/-! ## Properties of the eligibility filter -/

/-- C4: the eligibility filter returns exactly the listed objects whose name
ends with `.json` and whose last-modified instant is strictly earlier than
now minus the lookback window; an object exactly at the cutoff is excluded,
and an empty listing yields an empty result rather than an error. -/
theorem C4_eligibility_exact_filter (store : List Blob) (pfx : String)
    (now lookback_hours : Int) :
    (∀ b, b ∈ list_eligible_json_files store pfx now lookback_hours ↔
      (b ∈ list_blobs store pfx ∧ pyEndsWith b.name ".json" = true ∧
        b.updated < now - lookback_hours * 3600000000)) ∧
    (∀ b ∈ list_blobs store pfx, b.updated = now - lookback_hours * 3600000000 →
      b ∉ list_eligible_json_files store pfx now lookback_hours) ∧
    (list_blobs store pfx = [] →
      list_eligible_json_files store pfx now lookback_hours = []) := by
  refine ⟨?_, ?_, ?_⟩
  · intro b
    simp only [list_eligible_json_files, List.mem_filter, Bool.and_eq_true, decide_eq_true_eq]
  · intro b _ heq hmem
    simp only [list_eligible_json_files, List.mem_filter, Bool.and_eq_true,
      decide_eq_true_eq] at hmem
    omega
  · intro h
    simp [list_eligible_json_files, h]

/-- Witness for C4 at the empty listing. -/
theorem C4_witness :
    list_eligible_json_files [] "events/" 0 24 = [] :=
  (C4_eligibility_exact_filter [] "events/" 0 24).2.2 rfl

/-! ## Properties of configuration loading and the top-level run -/

/-- C9 (amended): the run raises the `RuntimeError` (the spec's
ConfigurationError) exactly for a missing input or output bucket; the lookback
window defaults to 24 when unset; a non-integer lookback raises the `int()``
ValueError (a different kind); but a negative integer lookback is accepted,
not rejected. -/
theorem C9_config_loading (env : String → Option String) :
    (env "INPUT_BUCKET" = none → load_config env = .error (.missingEnv "INPUT_BUCKET")) ∧
    (∀ ib, env "INPUT_BUCKET" = some ib → env "OUTPUT_BUCKET" = none →
      load_config env = .error (.missingEnv "OUTPUT_BUCKET")) ∧
    (∀ ib ob, env "INPUT_BUCKET" = some ib → env "OUTPUT_BUCKET" = some ob →
      (env "LOOKBACK_HOURS" = none →
        load_config env = .ok ⟨ib, ob, (env "INPUT_PREFIX").getD "events/", 24⟩) ∧
      (∀ s, env "LOOKBACK_HOURS" = some s →
        (pythonInt s = none → load_config env = .error .intValueError) ∧
        (∀ n, pythonInt s = some n →
          load_config env = .ok ⟨ib, ob, (env "INPUT_PREFIX").getD "events/", n⟩))) := by
  have h24 : pythonInt "24" = some 24 := rfl
  refine ⟨?_, ?_, ?_⟩
  · intro h
    simp [load_config, get_env_var, h]
  · intro ib h1 h2
    simp [load_config, get_env_var, h1, h2]
  · intro ib ob h1 h2
    constructor
    · intro h3
      cases hp : env "INPUT_PREFIX" <;>
        simp [load_config, get_env_var, h1, h2, h3, hp, h24]
    · intro s h3
      constructor
      · intro h4
        cases hp : env "INPUT_PREFIX" <;>
          simp [load_config, get_env_var, h1, h2, h3, hp, h4]
      · intro n h4
        cases hp : env "INPUT_PREFIX" <;>
          simp [load_config, get_env_var, h1, h2, h3, hp, h4]

/-- Counterexample for C9: the negative lookback string "-5" is accepted by
`int()` and the configuration loads with a negative lookback window. -/
theorem C9_counterexample :
    load_config (fun n => if n == "INPUT_BUCKET" then some "in"
      else if n == "OUTPUT_BUCKET" then some "out"
      else if n == "LOOKBACK_HOURS" then some "-5" else none) =
      .ok ⟨"in", "out", "events/", -5⟩ ∧ (-5 : Int) < 0 :=
  ⟨rfl, by decide⟩

/-- Witness for C9 at an empty environment: the input bucket is reported
missing. -/
theorem C9_witness :
    load_config (fun _ => none) = .error (.missingEnv "INPUT_BUCKET") :=
  (C9_config_loading (fun _ => none)).1 rfl

/-- C10: when the eligibility filter returns no files, the run ends
successfully right after discovery with no uploads — for any file contents
and any behaviour of the parsing collaborators, so the parser, normalizer,
aggregator and writer are never exercised. -/
theorem C10_empty_discovery_short_circuits (env : String → Option String)
    (store : List Blob) (now : Int) (decode : List Nat → Option String)
    (jsonLoads : String → Option JValue) (cfg : PipelineConfig)
    (hcfg : load_config env = .ok cfg)
    (helig : list_eligible_json_files store cfg.input_pathStart now cfg.lookback_hours = []) :
    Src.main env store now decode jsonLoads = .ok [] := by
  simp [Src.main, hcfg, helig]

/-- Witness for C10 at an empty store. -/
theorem C10_witness :
    Src.main (fun n => if n == "INPUT_BUCKET" then some "in"
      else if n == "OUTPUT_BUCKET" then some "out" else none)
      [] 0 (fun _ => none) (fun _ => none) = .ok [] :=
  C10_empty_discovery_short_circuits _ [] 0 _ _ ⟨"in", "out", "events/", 24⟩ rfl rfl
